import Mathlib

/-!
Verification of the duplicate-resolution and batch-processing core of the
`img_tools` repository (image compression / rotation / format conversion /
deduplication / super-resolution).

The Python sources are shallowly embedded:
* the deduplication directory is modelled as an association list from file
  names to byte sizes (within one flat directory a `Path` is determined by
  its file name, so paths are represented by their names);
* Python compares strings lexicographically by code points; this order is
  modelled by `strLeB` (`natLexLe` on the lists of character codes);
* `sorted(..., key=lambda p: p.name)` is modelled by `List.insertionSort`
  on that order (both sorts are stable);
* Python's `max(..., key=f)` / `min(..., key=f)`, which keep the first
  encountered extremum, are modelled by `pyMaxBy` / `pyMinBy`;
* in `SaveFileMode.SaveFirstAndLast` the Python variable
  `file_to_keep_in_group` holds a `list` of two paths while every other
  branch stores a single `Path`; the union type is modelled by `KeepVal`
  and the comparison `file_path != file_to_keep_in_group` (a `Path`
  compared against a `list`, which in Python is always unequal) by
  `keepValMem`.
-/

namespace ImgTools

/-- Lexicographic comparison of two lists of character codes. -/
def natLexLe : List Nat → List Nat → Bool
  | [], _ => true
  | _ :: _, [] => false
  | a :: as, b :: bs =>
    if a < b then true else if b < a then false else natLexLe as bs

/-- Python's `<=` on strings: lexicographic by character code points. -/
def strLeB (a b : String) : Bool :=
  natLexLe (a.data.map Char.toNat) (b.data.map Char.toNat)

/-- The string order as a binary relation (for `List.insertionSort`). -/
def nameLe (a b : String) : Prop := strLeB a b = true

instance : DecidableRel nameLe := fun _ _ => inferInstanceAs (Decidable (_ = true))

theorem natLexLe_refl : ∀ l : List Nat, natLexLe l l = true
  | [] => rfl
  | a :: as => by simp [natLexLe, natLexLe_refl as]

theorem natLexLe_total : ∀ l₁ l₂ : List Nat, natLexLe l₁ l₂ = true ∨ natLexLe l₂ l₁ = true
  | [], _ => .inl rfl
  | _ :: _, [] => .inr rfl
  | a :: as, b :: bs => by
    rcases Nat.lt_trichotomy a b with h | h | h
    · exact .inl (by simp [natLexLe, h])
    · subst h
      rcases natLexLe_total as bs with ih | ih
      · exact .inl (by simp [natLexLe, ih])
      · exact .inr (by simp [natLexLe, ih])
    · exact .inr (by simp [natLexLe, h])

theorem natLexLe_trans : ∀ l₁ l₂ l₃ : List Nat,
    natLexLe l₁ l₂ = true → natLexLe l₂ l₃ = true → natLexLe l₁ l₃ = true
  | [], _, _, _, _ => rfl
  | _ :: _, [], _, h₁, _ => by simp [natLexLe] at h₁
  | _ :: _, _ :: _, [], _, h₂ => by simp [natLexLe] at h₂
  | a :: as, b :: bs, c :: cs, h₁, h₂ => by
    simp only [natLexLe] at h₁ h₂ ⊢
    rcases Nat.lt_trichotomy a b with hab | hab | hab
    · rcases Nat.lt_trichotomy b c with hbc | hbc | hbc
      · simp [Nat.lt_trans hab hbc]
      · subst hbc; simp [hab]
      · rw [if_neg (Nat.lt_asymm hbc), if_pos hbc] at h₂
        exact absurd h₂ (by simp)
    · subst hab
      rcases Nat.lt_trichotomy a c with hac | hac | hac
      · simp [hac]
      · subst hac
        simp only [Nat.lt_irrefl, if_false] at h₁ h₂ ⊢
        exact natLexLe_trans as bs cs h₁ h₂
      · rw [if_neg (Nat.lt_asymm hac), if_pos hac] at h₂
        exact absurd h₂ (by simp)
    · rw [if_neg (Nat.lt_asymm hab), if_pos hab] at h₁
      exact absurd h₁ (by simp)

instance : IsTotal String nameLe :=
  ⟨fun a b => natLexLe_total (a.data.map Char.toNat) (b.data.map Char.toNat)⟩

instance : IsTrans String nameLe :=
  ⟨fun a b c => natLexLe_trans (a.data.map Char.toNat) (b.data.map Char.toNat)
    (c.data.map Char.toNat)⟩

instance : IsRefl String nameLe :=
  ⟨fun a => natLexLe_refl (a.data.map Char.toNat)⟩

/-- The image directory seen by `Duplication._resolve_duplicates`:
the existing regular files, as pairs (file name, byte size). -/
abbrev DirFS := List (String × Nat)

/-- `p.exists() and p.is_file()` for a path of the image directory. -/
def fileExists (fs : DirFS) (p : String) : Bool :=
  (fs.lookup p).isSome

/-- `p.stat().st_size`; only ever applied to files that passed the
existence filter. -/
def fileSize (fs : DirFS) (p : String) : Nat :=
  (fs.lookup p).getD 0

/-- `SaveFileMode` from `src/core/enums.py`. -/
inductive SaveFileMode where
  | SaveFirst
  | SaveLast
  | SaveFirstAndLast
  | SaveBigger
  | SaveSmaller
deriving DecidableEq, Repr

/-- The runtime value of the Python variable `file_to_keep_in_group` in
`Duplication._resolve_duplicates`: a single `Path` in four of the five
branches, a `list` of paths in the `SaveFirstAndLast` branch. -/
inductive KeepVal where
  | single (p : String)
  | pair (ps : List String)
deriving DecidableEq, Repr

/-- The Python test `file_path == file_to_keep_in_group`.  When
`file_to_keep_in_group` is a `list`, a `Path` never equals a `list`,
so the test is `False` regardless of the list's contents. -/
def keepValMem (p : String) : KeepVal → Bool
  | .single q => p == q
  | .pair _ => false

/-- The members of `file_to_keep_in_group` read as a collection of paths
(the intended keep-set). -/
def keepValList : KeepVal → List String
  | .single p => [p]
  | .pair ps => ps

/-- `sorted(current_group_paths, key=lambda p: p.name)`. -/
def sortByName (l : List String) : List String :=
  List.insertionSort nameLe l

/-- Python `max(l, key=f)` on the non-empty list `acc :: rest`:
the accumulator is replaced only on a strictly larger key, so the first
encountered maximum wins. -/
def pyMaxBy (f : String → Nat) : String → List String → String
  | acc, [] => acc
  | acc, x :: xs => pyMaxBy f (if f x > f acc then x else acc) xs

/-- Python `min(l, key=f)` on the non-empty list `acc :: rest`:
the accumulator is replaced only on a strictly smaller key, so the first
encountered minimum wins. -/
def pyMinBy (f : String → Nat) : String → List String → String
  | acc, [] => acc
  | acc, x :: xs => pyMinBy f (if f x < f acc then x else acc) xs

/-- Steps 1–2 of `Duplication._resolve_duplicates` for one raw duplicate
group: assemble `[main] + duplicates` and keep the members that exist and
are regular files. -/
def filteredGroup (fs : DirFS) (main : String) (dups : List String) : List String :=
  (main :: dups).filter (fun p => fileExists fs p)

/-- The `match save_file_mode` block of `_resolve_duplicates`, evaluated on
a (non-empty) filtered group.  On the empty list (which the source skips
via `continue` before reaching this match) it returns a dummy value. -/
def keepOfGroup (fs : DirFS) (mode : SaveFileMode) : List String → KeepVal
  | [] => .single ""
  | h :: t =>
    match mode with
    | .SaveFirst => .single ((sortByName (h :: t)).headD h)
    | .SaveLast => .single ((sortByName (h :: t)).getLastD h)
    | .SaveFirstAndLast =>
        .pair [(sortByName (h :: t)).headD h, (sortByName (h :: t)).getLastD h]
    | .SaveBigger => .single (pyMaxBy (fileSize fs) h t)
    | .SaveSmaller => .single (pyMinBy (fileSize fs) h t)

/-- One iteration of the group loop of `_resolve_duplicates`: the paths the
group contributes to `files_to_delete_final`
(`file_path for file_path in current_group_paths if file_path != file_to_keep_in_group`). -/
def resolveGroup (fs : DirFS) (mode : SaveFileMode)
    (main : String) (dups : List String) : List String :=
  let g := filteredGroup fs main dups
  if g.isEmpty then []
  else g.filter (fun p => !keepValMem p (keepOfGroup fs mode g))

/-- `Duplication._resolve_duplicates`: the global delete-set, the union of
the per-group contributions (`files_to_delete_final.update(...)` on a
Python `set`, so a path appearing in several groups is recorded once). -/
def resolveDuplicates (fs : DirFS) (mode : SaveFileMode)
    (raw : List (String × List String)) : Finset String :=
  raw.foldl (fun acc g => acc ∪ (resolveGroup fs mode g.1 g.2).toFinset) ∅

/-!
Override-mode deletion (`Duplication.process`, lines 148–156).  The
directory is a list of the still-existing files; `fails` is the failure
oracle for `unlink` (an `OSError`, e.g. a permission error).  On the first
failing deletion the loop raises at once; the raised error carries the
message and the directory state at the moment of the abort.
-/

/-- The `for file_to_delete in files_to_remove_set:` loop of
`Duplication.process` in override mode: skip vanished files, `unlink` the
rest, and raise `OSError` on the first failure. -/
def deleteLoop (fails : String → Bool) :
    List String → List String → Except (String × List String) (List String)
  | [], existing => .ok existing
  | f :: rest, existing =>
    if f ∈ existing then
      if fails f then .error ("删除文件 " ++ f ++ " 失败", existing)
      else deleteLoop fails rest (existing.erase f)
    else deleteLoop fails rest existing

/-!
The save block of `Compression.process` (`compression.py`, lines 141–199).
The pixel data and the encoders are opaque collaborators; what is modelled
is the control flow: primary save, on failure exactly one fallback save
(PNG when the image has an alpha channel or palette transparency, JPEG
otherwise), and the `finally: return output_path` clause.  Paths are
modelled as (stem, extension) pairs; `with_suffix` replaces the extension.
-/

/-- A file path as pathlib's (stem, suffix) pair. -/
structure PathSE where
  stem : String
  ext : String
deriving DecidableEq, Repr

/-- `path.with_suffix(newExt)`. -/
def withSuffix (p : PathSE) (newExt : String) : PathSE :=
  { p with ext := newExt }

/-- The fallback target format chosen in the `except` block of
`Compression.process`: PNG when the image has transparency, else JPEG. -/
def fallbackFormat (hasAlpha : Bool) : String :=
  if hasAlpha then "PNG" else "JPEG"

/-- `output_path.with_suffix(".png")` / `output_path.with_suffix(".jpg")`. -/
def fallbackPath (outputPath : PathSE) (hasAlpha : Bool) : PathSE :=
  withSuffix outputPath (if hasAlpha then ".png" else ".jpg")

/-- The encode attempts performed by the save block, as (format, path)
pairs in order: the primary save and — iff it failed — exactly one
fallback save. -/
def saveAttempts (primaryFails hasAlpha : Bool) (targetFormat : String)
    (outputPath : PathSE) : List (String × PathSE) :=
  (targetFormat, outputPath)
    :: (if primaryFails then
          [(fallbackFormat hasAlpha, fallbackPath outputPath hasAlpha)]
        else [])

/-- The `try/except` result *before* the `finally` clause runs: the saved
path, or the `IOError` raised when the fallback save also fails. -/
def saveTryExcept (primaryFails fallbackFails hasAlpha : Bool)
    (outputPath : PathSE) : Except String PathSE :=
  if !primaryFails then .ok outputPath
  else if !fallbackFails then .ok (fallbackPath outputPath hasAlpha)
  else .error "保存图像失败"

/-- The value of the local variable `output_path` when the `finally` clause
runs: it is reassigned to the fallback path only after a *successful*
fallback save. -/
def outputPathAtFinally (primaryFails fallbackFails hasAlpha : Bool)
    (outputPath : PathSE) : PathSE :=
  if primaryFails && !fallbackFails then fallbackPath outputPath hasAlpha
  else outputPath

/-- What the save block of `Compression.process` actually produces: the
`finally` clause executes `return output_path`, and in Python a `return`
inside `finally` discards any exception still propagating — including the
`IOError` raised when the fallback save failed too.  The block therefore
always returns normally. -/
def compressionSaveOutcome (primaryFails fallbackFails hasAlpha : Bool)
    (outputPath : PathSE) : Except String PathSE :=
  .ok (outputPathAtFinally primaryFails fallbackFails hasAlpha outputPath)

/-!
Output-directory preparation of the non-override batch operations.  The
pre-existing output directory is `none` when absent, `some contents`
otherwise; each function returns the contents of the output directory right
after the preparation step (and, for dedup, after the branch's copying).
-/

/-- `Compression.process_dir` lines 54–59: `rmtree` when present, then
`mkdir` — the output directory starts empty. -/
def compressionPrepareOutput (_existing : Option (List String)) : List String :=
  []

/-- `FormatConversion.process_dir` lines 53–56: `rmtree` when present, then
`mkdir`. -/
def formatConversionPrepareOutput (_existing : Option (List String)) : List String :=
  []

/-- `SuperResolution.process_dir` lines 61–64: `rmtree` when present, then
`mkdir`. -/
def superResolutionPrepareOutput (_existing : Option (List String)) : List String :=
  []

/-- `Rotation.process_dir` line 47 runs only `output_dir.mkdir(exist_ok=True)`:
an already-existing output directory keeps whatever it contains. -/
def rotationPrepareOutput (existing : Option (List String)) : List String :=
  existing.getD []

/-- The three non-override branches of `Duplication.process`. -/
inductive DedupBranch where
  /-- `if not encodings:` — no encodable image in the source directory
  (line 120). -/
  | noEncodings
  /-- `if not raw_duplicates:` — images but no duplicate group (line 132). -/
  | noDuplicates
  /-- duplicates found — the main branch (line 157). -/
  | hasDuplicates
deriving DecidableEq, Repr

/-- Contents of the `_deduplicated` output directory produced by each
non-override branch of `Duplication.process`, given the source directory's
regular files, the computed delete-set and the pre-existing output
contents: the no-encodings branch only `mkdir(parents=True, exist_ok=True)`s
(stale contents survive); the no-duplicates branch `rmtree`s and then
`copytree`s the source; the main branch `rmtree`s, `mkdir`s and copies the
source files not in the delete-set. -/
def dupProcessNonOverrideOutput (branch : DedupBranch) (srcFiles : List String)
    (deleteSet : List String) (existing : Option (List String)) : List String :=
  match branch with
  | .noEncodings => existing.getD []
  | .noDuplicates => srcFiles
  | .hasDuplicates => srcFiles.filter (fun p => !(deleteSet.contains p))

/-!
The worker-pool fan-out/fan-in shared by the batch entry points
(`Duplication.process_dir` lines 48–81, `SuperResolution.process_dir` /
`_process_single_image` lines 71–95 and 152–165).  A unit's computation
either produces a value or raises (`Except`); the worker wrapper catches
any exception at the unit boundary and turns it into the string
`"Error processing <path>: <message>"`.  `as_completed` yields every
future exactly once; completion order is a permutation of submission
order, and the stated properties are order-insensitive, so the batch is
modelled in submission order.
-/

/-- One worker (`_process_single_image` / `process_single_directory`):
`try: return process(...) except Exception as e: return f"Error processing {p}: {e}"`. -/
def runUnit (compute : String → Except String String) (p : String) :
    Sum String String :=
  match compute p with
  | .ok a => .inl a
  | .error e => .inr ("Error processing " ++ p ++ ": " ++ e)

/-- The pool: one submitted future per discovered unit, one collected
result per future. -/
def runBatch (compute : String → Except String String) (items : List String) :
    List (Sum String String) :=
  items.map (runUnit compute)

/-!
`Rotation.process` (`rotation.py`, lines 142–196).  The image is opaque
except for its pixel dimensions; rotating by one 90° turn in either
direction swaps them (`ROTATE_270` = clockwise, `ROTATE_90` =
counter-clockwise).
-/

/-- `Orientation` from `src/core/enums.py`. -/
inductive Orientation where
  | Vertical
  | Horizontal
deriving DecidableEq, Repr

/-- `RotationMode` from `src/core/enums.py`. -/
inductive RotationMode where
  | Clockwise
  | CounterClockwise
deriving DecidableEq, Repr

/-- The strict width/height classification of lines 151–154:
`some Horizontal` when `width > height`, `some Vertical` when
`height > width`, `none` for a square image. -/
def classifyOrientation (w h : Nat) : Option Orientation :=
  if w > h then some .Horizontal else if h > w then some .Vertical else none

/-- The `needs_rotation` flag of lines 156–165: rotate towards Horizontal
when currently strictly vertical, towards Vertical when currently strictly
horizontal. -/
def needsRotation (orientation : Orientation) (w h : Nat) : Bool :=
  match orientation with
  | .Horizontal => decide (h > w)
  | .Vertical => decide (w > h)

/-- What `Rotation.process` did to the image. -/
inductive RotAction where
  /-- `_perform_rotation_and_save` ran, with the requested mode. -/
  | rotated (mode : RotationMode)
  /-- override and no rotation needed: the original file is untouched. -/
  | keptOriginal
  /-- non-override and no rotation needed: `_copy_file` copies verbatim. -/
  | copied
deriving DecidableEq, Repr

/-- `Rotation.process` on an image of dimensions (w, h): the action taken
and the output dimensions. -/
def rotationProcess (orientation : Orientation) (mode : RotationMode)
    (override : Bool) (w h : Nat) : RotAction × Nat × Nat :=
  if needsRotation orientation w h then (.rotated mode, h, w)
  else if override then (.keptOriginal, w, h)
  else (.copied, w, h)

/-!
Directory-structure handling of the recursive non-override batches
(`Rotation.process_dir` lines 46–68, `SuperResolution.process_dir`
lines 97–108 with `SuperResolution.process` line 147 and
`IOuitls.detect_new_files`).  A file of the input tree is its relative
directory components plus pathlib's (stem, suffix).
-/

/-- A file inside a directory tree: relative directory components, stem,
extension. -/
structure RelFile where
  dir : List String
  stem : String
  ext : String
deriving DecidableEq, Repr

/-- `Rotation.process_dir` lines 49–55: before any task is submitted,
`(output_dir / rel_path.parent).mkdir(parents=True, exist_ok=True)` for
every discovered input — the mirrored directories of the inputs. -/
def rotationPrecreatedDirs (imgs : List RelFile) : List (List String) :=
  imgs.map (fun f => f.dir)

/-- `Rotation.process_dir` lines 66–67: the per-task target
`output_dir / img_path.relative_to(img_dir_path)` — the mirror of the
input's relative path inside the output directory. -/
def rotationTargetPath (f : RelFile) : RelFile := f

/-- `SuperResolution.process` line 147 in non-override mode:
`img_path.with_stem(f"{img_path.stem}_out")` — written beside the input,
inside the SOURCE tree. -/
def srWorkerOutput (f : RelFile) : RelFile :=
  { f with stem := f.stem ++ "_out" }

/-- `IOuitls.detect_new_files` globs only the direct children of the
monitored directory (`glob("*")`), so only new TOP-LEVEL files are
reported. -/
def detectNewTopLevel (written : List RelFile) : List RelFile :=
  written.filter (fun f => f.dir == ([] : List String))

/-- Python's `str.removesuffix("_out")`: drop the suffix when present. -/
def removeOutSuffix (s : String) : String :=
  if ("_out".data.reverse).isPrefixOf s.data.reverse then
    String.mk ((s.data.reverse.drop 4).reverse)
  else s

/-- The non-override epilogue of `SuperResolution.process_dir`
(lines 97–107): move each newly detected top-level file to
`output_dir / new_file.name` (flat), then rename every `*_out*` file inside
the output directory, stripping `_out` from its stem.  Result: (files now
inside the output directory, worker outputs left behind in the source
tree). -/
def srNonOverrideFinal (imgs : List RelFile) : List RelFile × List RelFile :=
  let written := imgs.map srWorkerOutput
  let moved := detectNewTopLevel written
  let leftInSource := written.filter (fun f => !(f.dir == ([] : List String)))
  (moved.map (fun f => { dir := [], stem := removeOutSuffix f.stem, ext := f.ext }),
   leftInSource)

/-!
The batch entry point `Duplication.process_dir` (lines 40–81): it validates
the ROOT directory, discovers the image FILES via
`IOuitls.get_img_paths_by_dir`, then submits each file path as the
`img_dir` argument of `Duplication.process`, whose own precondition
(line 112, `if not img_dir.is_dir(): raise ValueError`) can only fail for a
regular file.  The filesystem is abstracted as the file and directory path
sets; `suffixOf` models `Path.suffix.lower()` of the pathlib collaborator.
-/

/-- The file/directory view of the filesystem used by the dedup batch. -/
structure BatchFS where
  files : List String
  dirs : List String

/-- `p.is_file()`. -/
def isFile (fs : BatchFS) (p : String) : Bool := fs.files.contains p

/-- `p.is_dir()`. -/
def isDir (fs : BatchFS) (p : String) : Bool := fs.dirs.contains p

/-- `COMMON_IMAGE_SUFFIXES` from `src/core/constants.py`. -/
def commonImageSuffixes : List String :=
  [".jpg", ".jpeg", ".png", ".gif", ".bmp", ".webp"]

/-- `IOuitls.get_img_paths_by_dir`: keep the globbed paths that are regular
files with an allowed suffix. -/
def getImgPathsByDir (fs : BatchFS) (listing : List String)
    (suffixOf : String → String) : List String :=
  listing.filter (fun p => isFile fs p && commonImageSuffixes.contains (suffixOf p))

/-- The `is_dir` precondition at the top of `Duplication.process`
(lines 111–113). -/
def dupProcessCheck (fs : BatchFS) (imgDir : String) : Except String Unit :=
  if isDir fs imgDir then .ok ()
  else .error ("提供的路径 " ++ imgDir ++ " 不是一个有效的目录。")

/-- `process_single_directory` (lines 48–57): call `process` on the
submitted path, catching any exception as the error string.  Only the
precondition of `process` is modelled: the theorem below shows that for the
paths `process_dir` actually submits, `process` never gets past it — in
particular it never reaches the hashing, resolution or deletion stages. -/
def dupProcessSingleDirectory (fs : BatchFS) (p : String) : Sum Unit String :=
  match dupProcessCheck fs p with
  | .ok _ => .inl ()
  | .error e => .inr ("Error processing " ++ p ++ ": " ++ e)

/-- `Duplication.process_dir`: validate the root, discover the image files,
submit each FILE path as the `img_dir` argument of `process`, collect one
result per submission. -/
def dupProcessDir (fs : BatchFS) (imgDirPath : String) (listing : List String)
    (suffixOf : String → String) : Except String (List (Sum Unit String)) :=
  if !(isDir fs imgDirPath) then
    .error ("提供的路径 " ++ imgDirPath ++ " 不是一个有效的目录。")
  else
    .ok ((getImgPathsByDir fs listing suffixOf).map
      (fun p => dupProcessSingleDirectory fs p))

end ImgTools

namespace ImgTools

theorem getLastD_mem : ∀ (l : List String) (d : String), l ≠ [] → l.getLastD d ∈ l
  | [], _, h => absurd rfl h
  | [x], d, _ => by
    have : List.getLastD [x] d = x := rfl
    rw [this]
    exact List.mem_singleton_self x
  | x :: y :: t, d, _ => by
    rw [List.getLastD_cons]
    exact List.mem_cons_of_mem x (getLastD_mem (y :: t) x (by simp))

theorem pairwise_rel_getLastD {r : String → String → Prop} (hrefl : ∀ a, r a a) :
    ∀ (l : List String) (d : String), l.Pairwise r → ∀ p ∈ l, r p (l.getLastD d)
  | [], _, _, p, hp => absurd hp (List.not_mem_nil p)
  | [x], d, _, p, hp => by
    have hpx : p = x := by simpa using hp
    have hlast : List.getLastD [x] d = x := rfl
    rw [hpx, hlast]
    exact hrefl x
  | x :: y :: t, d, hpw, p, hp => by
    rcases List.pairwise_cons.mp hpw with ⟨hx, hrest⟩
    rw [List.getLastD_cons]
    rcases List.mem_cons.mp hp with hpx | hpyt
    · rw [hpx]
      exact hx _ (getLastD_mem (y :: t) x (by simp))
    · exact pairwise_rel_getLastD hrefl (y :: t) x hrest p hpyt

theorem sortByName_ne_nil {l : List String} (hl : l ≠ []) : sortByName l ≠ [] := by
  intro h
  have hperm : List.Perm (sortByName l) l := List.perm_insertionSort nameLe l
  rw [h] at hperm
  exact hl hperm.symm.eq_nil

theorem sortByName_sorted (l : List String) : (sortByName l).Pairwise nameLe :=
  List.sorted_insertionSort nameLe l

theorem sortByName_mem {l : List String} {p : String} :
    p ∈ sortByName l ↔ p ∈ l :=
  List.Perm.mem_iff (List.perm_insertionSort nameLe l)

/-- `sorted(group, key=name)[0]` is a group member with name `≤` every
member's name. -/
theorem sortByName_headD_min (l : List String) (d : String) (hl : l ≠ []) :
    (sortByName l).headD d ∈ l ∧ ∀ p ∈ l, nameLe ((sortByName l).headD d) p := by
  obtain ⟨k, rest, hs⟩ := List.exists_cons_of_ne_nil (sortByName_ne_nil hl)
  have hsorted := sortByName_sorted l
  rw [hs] at hsorted
  have hhead : (sortByName l).headD d = k := by rw [hs]; rfl
  rw [hhead]
  constructor
  · apply sortByName_mem.mp
    rw [hs]
    exact List.mem_cons_self k rest
  · intro p hp
    have hp' : p ∈ k :: rest := by
      rw [← hs]
      exact sortByName_mem.mpr hp
    rcases List.mem_cons.mp hp' with hpk | hpr
    · rw [hpk]
      exact IsRefl.refl (r := nameLe) k
    · exact List.rel_of_sorted_cons hsorted p hpr

/-- `sorted(group, key=name)[-1]` is a group member with name `≥` every
member's name. -/
theorem sortByName_getLastD_max (l : List String) (d : String) (hl : l ≠ []) :
    (sortByName l).getLastD d ∈ l ∧ ∀ p ∈ l, nameLe p ((sortByName l).getLastD d) := by
  constructor
  · exact sortByName_mem.mp (getLastD_mem _ d (sortByName_ne_nil hl))
  · intro p hp
    exact pairwise_rel_getLastD (fun a => IsRefl.refl (r := nameLe) a)
      (sortByName l) d (sortByName_sorted l) p (sortByName_mem.mpr hp)

/-- Python `max(key=f)` keeps the first encountered maximum: the scanned
list splits into a strictly-smaller prefix, the result, and a `≤` tail. -/
theorem pyMaxBy_spec (f : String → Nat) : ∀ (t : List String) (acc k : String),
    pyMaxBy f acc t = k →
    (k = acc ∧ ∀ x ∈ t, f x ≤ f acc)
    ∨ (∃ t₁ t₂, t = t₁ ++ k :: t₂
        ∧ f acc < f k
        ∧ (∀ x ∈ t₁, f x < f k)
        ∧ (∀ x ∈ t₂, f x ≤ f k))
  | [], acc, k, hk => .inl ⟨hk.symm, by simp⟩
  | x :: xs, acc, k, hk => by
    by_cases hx : f acc < f x
    · have hrec : pyMaxBy f x xs = k := by
        rw [← hk]; simp [pyMaxBy, gt_iff_lt, hx]
      rcases pyMaxBy_spec f xs x k hrec with ⟨heq, hle⟩ | ⟨t₁, t₂, hsplit, hacc, h₁, h₂⟩
      · refine .inr ⟨[], xs, by rw [heq]; rfl, ?_, by simp, ?_⟩
        · rw [heq]; exact hx
        · rw [heq]; exact hle
      · refine .inr ⟨x :: t₁, t₂, ?_, Nat.lt_trans hx hacc, ?_, h₂⟩
        · rw [List.cons_append]
          exact congrArg (List.cons x) hsplit
        · intro y hy
          rcases List.mem_cons.mp hy with hyx | hyt
          · rw [hyx]; exact hacc
          · exact h₁ y hyt
    · have hrec : pyMaxBy f acc xs = k := by
        rw [← hk]; simp [pyMaxBy, gt_iff_lt, hx]
      rcases pyMaxBy_spec f xs acc k hrec with ⟨heq, hle⟩ | ⟨t₁, t₂, hsplit, hacc, h₁, h₂⟩
      · refine .inl ⟨heq, ?_⟩
        intro y hy
        rcases List.mem_cons.mp hy with hyx | hyt
        · rw [hyx]; exact Nat.not_lt.mp hx
        · exact hle y hyt
      · refine .inr ⟨x :: t₁, t₂, ?_, hacc, ?_, h₂⟩
        · rw [List.cons_append]
          exact congrArg (List.cons x) hsplit
        · intro y hy
          rcases List.mem_cons.mp hy with hyx | hyt
          · rw [hyx]
            exact Nat.lt_of_le_of_lt (Nat.not_lt.mp hx) hacc
          · exact h₁ y hyt

/-- Python `min(key=f)` keeps the first encountered minimum. -/
theorem pyMinBy_spec (f : String → Nat) : ∀ (t : List String) (acc k : String),
    pyMinBy f acc t = k →
    (k = acc ∧ ∀ x ∈ t, f acc ≤ f x)
    ∨ (∃ t₁ t₂, t = t₁ ++ k :: t₂
        ∧ f k < f acc
        ∧ (∀ x ∈ t₁, f k < f x)
        ∧ (∀ x ∈ t₂, f k ≤ f x))
  | [], acc, k, hk => .inl ⟨hk.symm, by simp⟩
  | x :: xs, acc, k, hk => by
    by_cases hx : f x < f acc
    · have hrec : pyMinBy f x xs = k := by
        rw [← hk]; simp [pyMinBy, hx]
      rcases pyMinBy_spec f xs x k hrec with ⟨heq, hle⟩ | ⟨t₁, t₂, hsplit, hacc, h₁, h₂⟩
      · refine .inr ⟨[], xs, by rw [heq]; rfl, ?_, by simp, ?_⟩
        · rw [heq]; exact hx
        · rw [heq]; exact hle
      · refine .inr ⟨x :: t₁, t₂, ?_, Nat.lt_trans hacc hx, ?_, h₂⟩
        · rw [List.cons_append]
          exact congrArg (List.cons x) hsplit
        · intro y hy
          rcases List.mem_cons.mp hy with hyx | hyt
          · rw [hyx]; exact hacc
          · exact h₁ y hyt
    · have hrec : pyMinBy f acc xs = k := by
        rw [← hk]; simp [pyMinBy, hx]
      rcases pyMinBy_spec f xs acc k hrec with ⟨heq, hle⟩ | ⟨t₁, t₂, hsplit, hacc, h₁, h₂⟩
      · refine .inl ⟨heq, ?_⟩
        intro y hy
        rcases List.mem_cons.mp hy with hyx | hyt
        · rw [hyx]; exact Nat.not_lt.mp hx
        · exact hle y hyt
      · refine .inr ⟨x :: t₁, t₂, ?_, hacc, ?_, h₂⟩
        · rw [List.cons_append]
          exact congrArg (List.cons x) hsplit
        · intro y hy
          rcases List.mem_cons.mp hy with hyx | hyt
          · rw [hyx]
            exact Nat.lt_of_lt_of_le hacc (Nat.not_lt.mp hx)
          · exact h₁ y hyt

theorem max_split_all_le (f : String → Nat) (g l₁ l₂ : List String) (k : String)
    (hsplit : g = l₁ ++ k :: l₂)
    (h₁ : ∀ p ∈ l₁, f p < f k) (h₂ : ∀ p ∈ l₂, f p ≤ f k) :
    ∀ p ∈ g, f p ≤ f k := by
  intro p hp
  rw [hsplit] at hp
  rcases List.mem_append.mp hp with hp₁ | hp₂
  · exact Nat.le_of_lt (h₁ p hp₁)
  · rcases List.mem_cons.mp hp₂ with hpk | hp₂
    · rw [hpk]
    · exact h₂ p hp₂

theorem min_split_all_ge (f : String → Nat) (g l₁ l₂ : List String) (k : String)
    (hsplit : g = l₁ ++ k :: l₂)
    (h₁ : ∀ p ∈ l₁, f k < f p) (h₂ : ∀ p ∈ l₂, f k ≤ f p) :
    ∀ p ∈ g, f k ≤ f p := by
  intro p hp
  rw [hsplit] at hp
  rcases List.mem_append.mp hp with hp₁ | hp₂
  · exact Nat.le_of_lt (h₁ p hp₁)
  · rcases List.mem_cons.mp hp₂ with hpk | hp₂
    · rw [hpk]
    · exact h₂ p hp₂

/-- `max(group, key=size)` splits the group into a strictly-smaller prefix,
the chosen member, and a `≤` tail (first-encountered tie-break). -/
theorem pyMaxBy_cons_split (f : String → Nat) (h : String) (t : List String) :
    ∃ l₁ l₂, h :: t = l₁ ++ pyMaxBy f h t :: l₂
      ∧ (∀ p ∈ l₁, f p < f (pyMaxBy f h t))
      ∧ (∀ p ∈ l₂, f p ≤ f (pyMaxBy f h t)) := by
  rcases pyMaxBy_spec f t h (pyMaxBy f h t) rfl with ⟨heq, hle⟩ | ⟨t₁, t₂, hsplit, hacc, h₁, h₂⟩
  · refine ⟨[], t, ?_, by simp, ?_⟩
    · rw [heq]; rfl
    · rw [heq]; exact hle
  · refine ⟨h :: t₁, t₂, ?_, ?_, h₂⟩
    · rw [List.cons_append]
      exact congrArg (List.cons h) hsplit
    · intro p hp
      rcases List.mem_cons.mp hp with hph | hpt
      · rw [hph]; exact hacc
      · exact h₁ p hpt

/-- `min(group, key=size)` splits the group into a strictly-larger prefix,
the chosen member, and a `≥` tail (first-encountered tie-break). -/
theorem pyMinBy_cons_split (f : String → Nat) (h : String) (t : List String) :
    ∃ l₁ l₂, h :: t = l₁ ++ pyMinBy f h t :: l₂
      ∧ (∀ p ∈ l₁, f (pyMinBy f h t) < f p)
      ∧ (∀ p ∈ l₂, f (pyMinBy f h t) ≤ f p) := by
  rcases pyMinBy_spec f t h (pyMinBy f h t) rfl with ⟨heq, hle⟩ | ⟨t₁, t₂, hsplit, hacc, h₁, h₂⟩
  · refine ⟨[], t, ?_, by simp, ?_⟩
    · rw [heq]; rfl
    · rw [heq]; exact hle
  · refine ⟨h :: t₁, t₂, ?_, ?_, h₂⟩
    · rw [List.cons_append]
      exact congrArg (List.cons h) hsplit
    · intro p hp
      rcases List.mem_cons.mp hp with hph | hpt
      · rw [hph]; exact hacc
      · exact h₁ p hpt

theorem mem_of_split {g l₁ l₂ : List String} {k : String}
    (hsplit : g = l₁ ++ k :: l₂) : k ∈ g := by
  rw [hsplit]
  exact List.mem_append_right l₁ (List.mem_cons_self k l₂)

/-- In the four single-survivor modes the computed keep value is a single
group member. -/
theorem keepOfGroup_single (fs : DirFS) (mode : SaveFileMode)
    (h : String) (t : List String) (hmode : mode ≠ .SaveFirstAndLast) :
    ∃ k, keepOfGroup fs mode (h :: t) = .single k ∧ k ∈ h :: t := by
  cases mode with
  | SaveFirst =>
      exact ⟨_, rfl, (sortByName_headD_min (h :: t) h (by simp)).1⟩
  | SaveLast =>
      exact ⟨_, rfl, (sortByName_getLastD_max (h :: t) h (by simp)).1⟩
  | SaveFirstAndLast =>
      exact absurd rfl hmode
  | SaveBigger =>
      obtain ⟨l₁, l₂, hsplit, -, -⟩ := pyMaxBy_cons_split (fileSize fs) h t
      exact ⟨_, rfl, mem_of_split hsplit⟩
  | SaveSmaller =>
      obtain ⟨l₁, l₂, hsplit, -, -⟩ := pyMinBy_cons_split (fileSize fs) h t
      exact ⟨_, rfl, mem_of_split hsplit⟩

theorem resolveGroup_of_ne_nil (fs : DirFS) (mode : SaveFileMode)
    (main : String) (dups : List String) (hne : filteredGroup fs main dups ≠ []) :
    resolveGroup fs mode main dups
      = (filteredGroup fs main dups).filter
          (fun p => !keepValMem p (keepOfGroup fs mode (filteredGroup fs main dups))) := by
  unfold resolveGroup
  rw [if_neg]
  simpa using hne

theorem mem_foldl_union (fs : DirFS) (mode : SaveFileMode)
    (raw : List (String × List String)) (acc : Finset String) (q : String) :
    (q ∈ raw.foldl (fun acc g => acc ∪ (resolveGroup fs mode g.1 g.2).toFinset) acc)
      ↔ q ∈ acc ∨ ∃ pr ∈ raw, q ∈ resolveGroup fs mode pr.1 pr.2 := by
  induction raw generalizing acc with
  | nil => simp
  | cons g raw ih =>
    rw [List.foldl_cons, ih]
    simp only [Finset.mem_union, List.mem_toFinset, List.mem_cons]
    constructor
    · rintro ((hq | hq) | ⟨pr, hpr, hq⟩)
      · exact .inl hq
      · exact .inr ⟨g, .inl rfl, hq⟩
      · exact .inr ⟨pr, .inr hpr, hq⟩
    · rintro (hq | ⟨pr, (hpr | hpr), hq⟩)
      · exact .inl (.inl hq)
      · exact .inl (.inr (hpr ▸ hq))
      · exact .inr ⟨pr, hpr, hq⟩

/-- Membership in the global delete-set: exactly the union of the per-group
contributions. -/
theorem mem_resolveDuplicates (fs : DirFS) (mode : SaveFileMode)
    (raw : List (String × List String)) (q : String) :
    q ∈ resolveDuplicates fs mode raw
      ↔ ∃ pr ∈ raw, q ∈ resolveGroup fs mode pr.1 pr.2 := by
  unfold resolveDuplicates
  rw [mem_foldl_union]
  simp

/-- **C1** (code-bug evidence).  Under `SaveFileMode.SaveFirstAndLast` the
source stores a two-element `list` in `file_to_keep_in_group`, yet the
delete filter compares each `Path` against that `list` with `!=`, which is
always true in Python; so although the computed keep value is exactly
[name-smallest, name-largest], every member of the group — the intended
keepers included — is added to the delete-set.  Concretely, for the group
{a.png, b.png, c.png} the keep value is [a.png, c.png] but the whole group
is marked for deletion. -/
theorem saveFirstAndLast_deletes_whole_group :
    keepOfGroup [("a.png", 1), ("b.png", 1), ("c.png", 1)] .SaveFirstAndLast
        (filteredGroup [("a.png", 1), ("b.png", 1), ("c.png", 1)] "a.png" ["b.png", "c.png"])
      = .pair ["a.png", "c.png"]
    ∧ resolveGroup [("a.png", 1), ("b.png", 1), ("c.png", 1)] .SaveFirstAndLast
        "a.png" ["b.png", "c.png"]
      = ["a.png", "b.png", "c.png"] := by
  constructor
  · decide
  · decide

/-- **C2** (counterexample).  The keep-set and the delete-set are *not*
disjoint for `SaveFirstAndLast`: in the group {a.png, b.png} the keep value
contains `a.png`, yet `a.png` is also in the group's delete contribution. -/
theorem keep_and_delete_sets_not_disjoint :
    "a.png" ∈ keepValList (keepOfGroup [("a.png", 1), ("b.png", 1)] .SaveFirstAndLast
        (filteredGroup [("a.png", 1), ("b.png", 1)] "a.png" ["b.png"]))
    ∧ "a.png" ∈ resolveGroup [("a.png", 1), ("b.png", 1)] .SaveFirstAndLast
        "a.png" ["b.png"] := by
  constructor
  · decide
  · decide

/-- **C2** (amended).  For every `SaveFileMode`, every directory and every
raw duplicate mapping, the global delete-set is the union of the per-group
contributions (a path in several groups is deleted once, the set being a
`Finset`); and for the four single-survivor modes (every mode other than
`SaveFirstAndLast`) and every group with a non-empty existence-filtered
membership, the keep value is a single member of the filtered group, the
group's delete contribution is exactly the filtered group minus that
member, and the kept member is not in the delete contribution. -/
theorem resolve_duplicates_invariants (fs : DirFS) (mode : SaveFileMode)
    (main : String) (dups : List String)
    (raw : List (String × List String)) (q : String) :
    (mode ≠ .SaveFirstAndLast → filteredGroup fs main dups ≠ [] →
      ∃ k, keepOfGroup fs mode (filteredGroup fs main dups) = .single k
        ∧ k ∈ filteredGroup fs main dups
        ∧ resolveGroup fs mode main dups
            = (filteredGroup fs main dups).filter (fun p => !(p == k))
        ∧ k ∉ resolveGroup fs mode main dups
        ∧ ∀ p ∈ resolveGroup fs mode main dups,
            p ∈ filteredGroup fs main dups ∧ p ≠ k)
    ∧ (q ∈ resolveDuplicates fs mode raw
        ↔ ∃ pr ∈ raw, q ∈ resolveGroup fs mode pr.1 pr.2) := by
  constructor
  · intro hmode hne
    obtain ⟨h, t, hg⟩ := List.exists_cons_of_ne_nil hne
    obtain ⟨k, hk, hkmem⟩ := keepOfGroup_single fs mode h t hmode
    rw [← hg] at hk hkmem
    have hfil : resolveGroup fs mode main dups
        = (filteredGroup fs main dups).filter (fun p => !(p == k)) := by
      rw [resolveGroup_of_ne_nil fs mode main dups hne, hk]
      rfl
    refine ⟨k, hk, hkmem, hfil, ?_, ?_⟩
    · rw [hfil]
      simp
    · intro p hp
      rw [hfil] at hp
      have := List.mem_filter.mp hp
      refine ⟨this.1, ?_⟩
      simpa using this.2
  · exact mem_resolveDuplicates fs mode raw q

/-- **C2** (witness): the single-survivor invariants at `SaveFirst` on a
concrete group, with both hypotheses discharged, and the union
characterization at `SaveFirstAndLast` — the mode the hypotheses do not
cover — on a concrete directory. -/
theorem resolve_duplicates_invariants_witness :
    (∃ k, keepOfGroup [("a.png", 1), ("b.png", 2)] .SaveFirst
            (filteredGroup [("a.png", 1), ("b.png", 2)] "a.png" ["b.png"]) = .single k
      ∧ k ∈ filteredGroup [("a.png", 1), ("b.png", 2)] "a.png" ["b.png"]
      ∧ resolveGroup [("a.png", 1), ("b.png", 2)] .SaveFirst "a.png" ["b.png"]
          = (filteredGroup [("a.png", 1), ("b.png", 2)] "a.png" ["b.png"]).filter
              (fun p => !(p == k))
      ∧ k ∉ resolveGroup [("a.png", 1), ("b.png", 2)] .SaveFirst "a.png" ["b.png"]
      ∧ ∀ p ∈ resolveGroup [("a.png", 1), ("b.png", 2)] .SaveFirst "a.png" ["b.png"],
          p ∈ filteredGroup [("a.png", 1), ("b.png", 2)] "a.png" ["b.png"] ∧ p ≠ k)
    ∧ ("a.png" ∈ resolveDuplicates [("a.png", 1), ("b.png", 1)] .SaveFirstAndLast
          [("a.png", ["b.png"])]
        ↔ ∃ pr ∈ [("a.png", ["b.png"])],
            "a.png" ∈ resolveGroup [("a.png", 1), ("b.png", 1)] .SaveFirstAndLast
              pr.1 pr.2) :=
  ⟨(resolve_duplicates_invariants [("a.png", 1), ("b.png", 2)] .SaveFirst
      "a.png" ["b.png"] [("a.png", ["b.png"])] "b.png").1 (by decide) (by decide),
   (resolve_duplicates_invariants [("a.png", 1), ("b.png", 1)] .SaveFirstAndLast
      "a.png" ["b.png"] [("a.png", ["b.png"])] "a.png").2⟩

/-- **C3**.  Selection rules of the four single-survivor modes on a
non-empty filtered group: `SaveFirst` keeps a member whose name is `≤`
(lexicographically, by code points) every member's name, `SaveLast` one
whose name is `≥` every member's name, `SaveBigger` the first encountered
member of maximal byte size (everything before it is strictly smaller,
everything after is `≤`), `SaveSmaller` the first encountered member of
minimal byte size; and the concrete group {a.png, a_dup.png} under
`SaveFirst` yields the delete-set {a_dup.png}. -/
theorem single_survivor_selection (fs : DirFS) (main : String) (dups : List String)
    (hne : filteredGroup fs main dups ≠ []) :
    (∃ k, keepOfGroup fs .SaveFirst (filteredGroup fs main dups) = .single k
        ∧ k ∈ filteredGroup fs main dups
        ∧ ∀ p ∈ filteredGroup fs main dups, strLeB k p = true)
    ∧ (∃ k, keepOfGroup fs .SaveLast (filteredGroup fs main dups) = .single k
        ∧ k ∈ filteredGroup fs main dups
        ∧ ∀ p ∈ filteredGroup fs main dups, strLeB p k = true)
    ∧ (∃ k l₁ l₂, keepOfGroup fs .SaveBigger (filteredGroup fs main dups) = .single k
        ∧ filteredGroup fs main dups = l₁ ++ k :: l₂
        ∧ (∀ p ∈ l₁, fileSize fs p < fileSize fs k)
        ∧ (∀ p ∈ filteredGroup fs main dups, fileSize fs p ≤ fileSize fs k))
    ∧ (∃ k l₁ l₂, keepOfGroup fs .SaveSmaller (filteredGroup fs main dups) = .single k
        ∧ filteredGroup fs main dups = l₁ ++ k :: l₂
        ∧ (∀ p ∈ l₁, fileSize fs k < fileSize fs p)
        ∧ (∀ p ∈ filteredGroup fs main dups, fileSize fs k ≤ fileSize fs p))
    ∧ resolveDuplicates [("a.png", 10), ("a_dup.png", 10)] .SaveFirst
        [("a.png", ["a_dup.png"])] = {"a_dup.png"} := by
  obtain ⟨h, t, hg⟩ := List.exists_cons_of_ne_nil hne
  refine ⟨?_, ?_, ?_, ?_, by decide⟩
  · obtain ⟨hmem, hmin⟩ := sortByName_headD_min (h :: t) h (by simp)
    rw [hg]
    exact ⟨_, rfl, hmem, hmin⟩
  · obtain ⟨hmem, hmax⟩ := sortByName_getLastD_max (h :: t) h (by simp)
    rw [hg]
    exact ⟨_, rfl, hmem, fun p hp => hmax p hp⟩
  · obtain ⟨l₁, l₂, hsplit, h₁, h₂⟩ := pyMaxBy_cons_split (fileSize fs) h t
    rw [hg]
    exact ⟨_, l₁, l₂, rfl, hsplit, h₁,
      max_split_all_le (fileSize fs) (h :: t) l₁ l₂ _ hsplit h₁ h₂⟩
  · obtain ⟨l₁, l₂, hsplit, h₁, h₂⟩ := pyMinBy_cons_split (fileSize fs) h t
    rw [hg]
    exact ⟨_, l₁, l₂, rfl, hsplit, h₁,
      min_split_all_ge (fileSize fs) (h :: t) l₁ l₂ _ hsplit h₁ h₂⟩

/-- **C3** (witness). -/
theorem single_survivor_selection_witness :
    (∃ k, keepOfGroup [("big.png", 40000), ("small.png", 2500)] .SaveFirst
            (filteredGroup [("big.png", 40000), ("small.png", 2500)] "big.png" ["small.png"])
          = .single k
        ∧ k ∈ filteredGroup [("big.png", 40000), ("small.png", 2500)] "big.png" ["small.png"]
        ∧ ∀ p ∈ filteredGroup [("big.png", 40000), ("small.png", 2500)] "big.png" ["small.png"],
            strLeB k p = true)
    ∧ (∃ k, keepOfGroup [("big.png", 40000), ("small.png", 2500)] .SaveLast
            (filteredGroup [("big.png", 40000), ("small.png", 2500)] "big.png" ["small.png"])
          = .single k
        ∧ k ∈ filteredGroup [("big.png", 40000), ("small.png", 2500)] "big.png" ["small.png"]
        ∧ ∀ p ∈ filteredGroup [("big.png", 40000), ("small.png", 2500)] "big.png" ["small.png"],
            strLeB p k = true)
    ∧ (∃ k l₁ l₂, keepOfGroup [("big.png", 40000), ("small.png", 2500)] .SaveBigger
            (filteredGroup [("big.png", 40000), ("small.png", 2500)] "big.png" ["small.png"])
          = .single k
        ∧ filteredGroup [("big.png", 40000), ("small.png", 2500)] "big.png" ["small.png"]
            = l₁ ++ k :: l₂
        ∧ (∀ p ∈ l₁, fileSize [("big.png", 40000), ("small.png", 2500)] p
              < fileSize [("big.png", 40000), ("small.png", 2500)] k)
        ∧ (∀ p ∈ filteredGroup [("big.png", 40000), ("small.png", 2500)] "big.png" ["small.png"],
              fileSize [("big.png", 40000), ("small.png", 2500)] p
                ≤ fileSize [("big.png", 40000), ("small.png", 2500)] k))
    ∧ (∃ k l₁ l₂, keepOfGroup [("big.png", 40000), ("small.png", 2500)] .SaveSmaller
            (filteredGroup [("big.png", 40000), ("small.png", 2500)] "big.png" ["small.png"])
          = .single k
        ∧ filteredGroup [("big.png", 40000), ("small.png", 2500)] "big.png" ["small.png"]
            = l₁ ++ k :: l₂
        ∧ (∀ p ∈ l₁, fileSize [("big.png", 40000), ("small.png", 2500)] k
              < fileSize [("big.png", 40000), ("small.png", 2500)] p)
        ∧ (∀ p ∈ filteredGroup [("big.png", 40000), ("small.png", 2500)] "big.png" ["small.png"],
              fileSize [("big.png", 40000), ("small.png", 2500)] k
                ≤ fileSize [("big.png", 40000), ("small.png", 2500)] p))
    ∧ resolveDuplicates [("a.png", 10), ("a_dup.png", 10)] .SaveFirst
        [("a.png", ["a_dup.png"])] = {"a_dup.png"} :=
  single_survivor_selection [("big.png", 40000), ("small.png", 2500)]
    "big.png" ["small.png"] (by decide)

/-- **C4** (counterexample).  With delete-set iterated as
[a.png, b.png], both files existing and the deletion of a.png failing, the
override-mode deletion loop raises at once; the directory state carried by
the error still contains b.png — its deletion was never attempted, contrary
to the claim that remaining deletions are still attempted. -/
theorem delete_failure_aborts_batch :
    deleteLoop (fun f => f == "a.png") ["a.png", "b.png"] ["a.png", "b.png"]
      = .error ("删除文件 a.png 失败", ["a.png", "b.png"]) := by
  rfl

/-- **C4** (amended): fail-fast deletion.  If no file before `f` fails, `f`
is still present when reached and its `unlink` fails, then the loop raises
immediately with the directory state reached just before the failure; in
particular no file listed after `f` is attempted — the state at abort is
exactly the fold of the successful deletions over the prefix. -/
theorem delete_loop_fail_fast (fails : String → Bool) (f : String)
    (l₂ : List String) (hf : fails f = true) :
    ∀ (l₁ ex : List String),
    (∀ x ∈ l₁, fails x = false) →
    f ∈ l₁.foldl (fun s x => s.erase x) ex →
    deleteLoop fails (l₁ ++ f :: l₂) ex
      = .error ("删除文件 " ++ f ++ " 失败", l₁.foldl (fun s x => s.erase x) ex)
  | [], ex, _, hex => by
    simp only [List.nil_append, List.foldl_nil] at hex ⊢
    simp only [deleteLoop]
    rw [if_pos hex, if_pos hf]
  | x :: l₁, ex, h₁, hex => by
    have hx : fails x = false := h₁ x (List.mem_cons_self x l₁)
    have h₁' : ∀ y ∈ l₁, fails y = false :=
      fun y hy => h₁ y (List.mem_cons_of_mem x hy)
    simp only [List.foldl_cons] at hex ⊢
    simp only [List.cons_append, deleteLoop]
    by_cases hmem : x ∈ ex
    · rw [if_pos hmem,
        if_neg (fun hcontra => absurd (hx.symm.trans hcontra) (by decide))]
      exact delete_loop_fail_fast fails f l₂ hf l₁ (ex.erase x) h₁' hex
    · rw [if_neg hmem]
      rw [List.erase_of_not_mem hmem] at hex ⊢
      exact delete_loop_fail_fast fails f l₂ hf l₁ ex h₁' hex

/-- **C4** (witness). -/
theorem delete_loop_fail_fast_witness :
    deleteLoop (fun f => f == "b.png") (["a.png"] ++ "b.png" :: ["c.png"])
        ["a.png", "b.png", "c.png"]
      = .error ("删除文件 " ++ "b.png" ++ " 失败",
          ["a.png"].foldl (fun s x => s.erase x) ["a.png", "b.png", "c.png"]) :=
  delete_loop_fail_fast (fun f => f == "b.png") "b.png" ["c.png"] (by decide)
    ["a.png"] ["a.png", "b.png", "c.png"] (by decide) (by decide)

/-- **C5** (code-bug evidence).  When the primary save fails, exactly one
fallback encode is attempted — to PNG when the image has transparency and
to JPEG otherwise, with the output extension adjusted — as the claim says;
but when that fallback also fails, the `IOError` raised in the `except`
block is discarded by the `return output_path` in the `finally` clause, so
the save block yields the primary output path as a *normal* return value
instead of surfacing an error. -/
theorem compression_fallback_error_swallowed (hasAlpha : Bool)
    (fmt : String) (out : PathSE) :
    saveAttempts true hasAlpha fmt out
      = [(fmt, out), (fallbackFormat hasAlpha, fallbackPath out hasAlpha)]
    ∧ fallbackFormat true = "PNG"
    ∧ fallbackFormat false = "JPEG"
    ∧ fallbackPath out true = withSuffix out ".png"
    ∧ fallbackPath out false = withSuffix out ".jpg"
    ∧ saveTryExcept true true hasAlpha out = .error "保存图像失败"
    ∧ compressionSaveOutcome true true hasAlpha out = .ok out := by
  refine ⟨rfl, rfl, rfl, rfl, rfl, rfl, ?_⟩
  simp [compressionSaveOutcome, outputPathAtFinally]

/-- **C5** (witness). -/
theorem compression_fallback_error_swallowed_witness :
    saveAttempts true false "WEBP" ⟨"img_compressed", ".webp"⟩
      = [("WEBP", ⟨"img_compressed", ".webp"⟩),
         (fallbackFormat false, fallbackPath ⟨"img_compressed", ".webp"⟩ false)]
    ∧ fallbackFormat true = "PNG"
    ∧ fallbackFormat false = "JPEG"
    ∧ fallbackPath ⟨"img_compressed", ".webp"⟩ true
        = withSuffix ⟨"img_compressed", ".webp"⟩ ".png"
    ∧ fallbackPath ⟨"img_compressed", ".webp"⟩ false
        = withSuffix ⟨"img_compressed", ".webp"⟩ ".jpg"
    ∧ saveTryExcept true true false ⟨"img_compressed", ".webp"⟩
        = .error "保存图像失败"
    ∧ compressionSaveOutcome true true false ⟨"img_compressed", ".webp"⟩
        = .ok ⟨"img_compressed", ".webp"⟩ :=
  compression_fallback_error_swallowed false "WEBP" ⟨"img_compressed", ".webp"⟩

/-- **C6** (counterexample).  A stale pre-existing output directory is NOT
wiped by the dedup branch for a source directory with no encodable images
(`mkdir(parents=True, exist_ok=True)` only), nor by rotation
(`mkdir(exist_ok=True)` only): the stale file survives, so repeated
non-override runs are not idempotent there. -/
theorem stale_output_not_wiped :
    dupProcessNonOverrideOutput .noEncodings [] [] (some ["stale.png"])
        = ["stale.png"]
    ∧ dupProcessNonOverrideOutput .noEncodings [] [] (some ["stale.png"]) ≠ []
    ∧ rotationPrepareOutput (some ["stale.png"]) = ["stale.png"]
    ∧ rotationPrepareOutput (some ["stale.png"]) ≠ [] := by
  refine ⟨rfl, ?_, rfl, ?_⟩ <;> decide

/-- **C6** (amended).  Compression, format conversion and super-resolution
remove and recreate an existing non-override output directory, and the
dedup branches that found duplicate groups (copy of the survivors) or found
none (full copy of the source) also start from a wiped directory — their
output depends only on the source files; but the dedup branch for a source
directory with no encodable images and the rotation batch reuse an existing
output directory without clearing it, so stale files from a previous run
survive there. -/
theorem output_dir_preparation (existing : Option (List String))
    (srcFiles deleteSet stale : List String) :
    compressionPrepareOutput existing = []
    ∧ formatConversionPrepareOutput existing = []
    ∧ superResolutionPrepareOutput existing = []
    ∧ dupProcessNonOverrideOutput .noDuplicates srcFiles deleteSet existing
        = srcFiles
    ∧ dupProcessNonOverrideOutput .hasDuplicates srcFiles deleteSet existing
        = srcFiles.filter (fun p => !(deleteSet.contains p))
    ∧ dupProcessNonOverrideOutput .noEncodings srcFiles deleteSet (some stale)
        = stale
    ∧ rotationPrepareOutput (some stale) = stale :=
  ⟨rfl, rfl, rfl, rfl, rfl, rfl, rfl⟩

/-- **C7**.  The batch aggregate has exactly one outcome per input unit, in
a one-to-one correspondence with the inputs; a unit whose computation
raises is converted at the unit boundary into the failure string carrying
the offending path and message; and when every unit fails the aggregate
still contains one failure outcome per unit — the batch result is always
produced and no failure removes other outcomes. -/
theorem batch_failure_isolation (compute : String → Except String String)
    (items : List String) (p e : String) :
    (runBatch compute items).length = items.length
    ∧ (∀ i : Nat, (runBatch compute items)[i]?
        = (items[i]?).map (runUnit compute))
    ∧ (compute p = .error e →
        runUnit compute p = .inr ("Error processing " ++ p ++ ": " ++ e))
    ∧ ((∀ q ∈ items, ∃ msg, compute q = .error msg) →
        ∀ r ∈ runBatch compute items,
          ∃ q ∈ items, ∃ msg, compute q = .error msg
            ∧ r = .inr ("Error processing " ++ q ++ ": " ++ msg)) := by
  refine ⟨by simp [runBatch], ?_, ?_, ?_⟩
  · intro i
    simp [runBatch]
  · intro h
    simp [runUnit, h]
  · intro hall r hr
    obtain ⟨q, hq, rfl⟩ := List.mem_map.mp hr
    obtain ⟨msg, hmsg⟩ := hall q hq
    exact ⟨q, hq, msg, hmsg, by simp [runUnit, hmsg]⟩

/-- **C7** (witness). -/
theorem batch_failure_isolation_witness :
    (runBatch (fun _ => .error "boom") ["x.png", "y.png"]).length
        = (["x.png", "y.png"] : List String).length
    ∧ (∀ i : Nat, (runBatch (fun _ => .error "boom") ["x.png", "y.png"])[i]?
        = ((["x.png", "y.png"] : List String)[i]?).map
            (runUnit (fun _ => .error "boom")))
    ∧ ((fun _ => (.error "boom" : Except String String)) "x.png" = .error "boom" →
        runUnit (fun _ => .error "boom") "x.png"
          = .inr ("Error processing " ++ "x.png" ++ ": " ++ "boom"))
    ∧ ((∀ q ∈ (["x.png", "y.png"] : List String),
          ∃ msg, (fun _ => (.error "boom" : Except String String)) q = .error msg) →
        ∀ r ∈ runBatch (fun _ => .error "boom") ["x.png", "y.png"],
          ∃ q ∈ (["x.png", "y.png"] : List String),
            ∃ msg, (fun _ => (.error "boom" : Except String String)) q = .error msg
              ∧ r = .inr ("Error processing " ++ q ++ ": " ++ msg)) :=
  batch_failure_isolation (fun _ => .error "boom") ["x.png", "y.png"] "x.png" "boom"

/-- **C8**.  `Rotation.process` rotates (by one 90° turn in the requested
direction, swapping the dimensions) exactly when the strict width/height
classification of the current orientation yields an orientation different
from the target; a square image is never rotated — it is kept unchanged in
override mode and copied verbatim otherwise; a 120×80 image with target
Vertical becomes 80×120 while an already-vertical 80×120 image is
untouched. -/
theorem rotation_only_on_mismatch (o : Orientation) (m : RotationMode)
    (ov : Bool) (w h : Nat) :
    ((rotationProcess o m ov w h).1 = .rotated m
      ↔ ∃ c, classifyOrientation w h = some c ∧ c ≠ o)
    ∧ rotationProcess o m true w w = (.keptOriginal, w, w)
    ∧ rotationProcess o m false w w = (.copied, w, w)
    ∧ rotationProcess .Vertical m true 120 80 = (.rotated m, 80, 120)
    ∧ rotationProcess .Vertical m true 80 120 = (.keptOriginal, 80, 120) := by
  refine ⟨?_, ?_, ?_, rfl, rfl⟩
  · rcases Nat.lt_trichotomy w h with hlt | heq | hgt
    · cases o <;> cases ov <;>
        simp [rotationProcess, needsRotation, classifyOrientation, gt_iff_lt,
          hlt, Nat.lt_asymm hlt]
    · cases o <;> cases ov <;>
        simp [rotationProcess, needsRotation, classifyOrientation, gt_iff_lt,
          heq, Nat.lt_irrefl]
    · cases o <;> cases ov <;>
        simp [rotationProcess, needsRotation, classifyOrientation, gt_iff_lt,
          hgt, Nat.lt_asymm hgt]
  · cases o <;>
      simp [rotationProcess, needsRotation, gt_iff_lt, Nat.lt_irrefl]
  · cases o <;>
      simp [rotationProcess, needsRotation, gt_iff_lt, Nat.lt_irrefl]

/-- **C8** (witness). -/
theorem rotation_only_on_mismatch_witness :
    ((rotationProcess .Vertical .Clockwise true 120 80).1 = .rotated .Clockwise
      ↔ ∃ c, classifyOrientation 120 80 = some c ∧ c ≠ .Vertical)
    ∧ rotationProcess .Vertical .Clockwise true 120 120 = (.keptOriginal, 120, 120)
    ∧ rotationProcess .Vertical .Clockwise false 120 120 = (.copied, 120, 120)
    ∧ rotationProcess .Vertical .Clockwise true 120 80 = (.rotated .Clockwise, 80, 120)
    ∧ rotationProcess .Vertical .Clockwise true 80 120 = (.keptOriginal, 80, 120) :=
  rotation_only_on_mismatch .Vertical .Clockwise true 120 80

theorem removeOutSuffix_append (s : String) : removeOutSuffix (s ++ "_out") = s := by
  unfold removeOutSuffix
  rw [show (s ++ "_out").data = s.data ++ "_out".data from rfl, List.reverse_append]
  rw [if_pos (List.isPrefixOf_iff_prefix.mpr (List.prefix_append _ _))]
  rw [List.drop_left' (show ("_out".data.reverse).length = 4 from rfl),
    List.reverse_reverse]

/-- **C9** (counterexample).  For the single discovered input sub/a.png the
super-resolution non-override pipeline yields NO file in the output
directory: the worker output sub/a_out.png is written beside the input in
the source tree and `detect_new_files` scans only the top level, so it is
never moved; in particular nothing lands at the mirrored path sub/a.png
inside the output directory. -/
theorem sr_subdir_output_not_mirrored :
    srNonOverrideFinal [⟨["sub"], "a", ".png"⟩]
        = ([], [⟨["sub"], "a_out", ".png"⟩])
    ∧ (⟨["sub"], "a", ".png"⟩ : RelFile)
        ∉ (srNonOverrideFinal [⟨["sub"], "a", ".png"⟩]).1 := by
  constructor
  · decide
  · decide

/-- **C9** (amended).  Rotation (non-override, recursive) pre-creates the
mirrored parent directory of every discovered input before dispatch, and
each worker's target is exactly the mirror of its input's relative path.
Super-resolution does not mirror: each worker writes `<stem>_out` beside
its input in the source tree; afterwards only top-level outputs are moved
— flat — into the output directory with the `_out` suffix stripped back
off, every file that reaches the output directory sits at its top level,
and the output of an input lying in a subdirectory stays behind in the
source tree. -/
theorem mirrored_structure (imgs : List RelFile) (f : RelFile) (hf : f ∈ imgs) :
    (rotationTargetPath f).dir ∈ rotationPrecreatedDirs imgs
    ∧ rotationTargetPath f = f
    ∧ (f.dir = [] → (⟨[], f.stem, f.ext⟩ : RelFile) ∈ (srNonOverrideFinal imgs).1)
    ∧ (f.dir ≠ [] → srWorkerOutput f ∈ (srNonOverrideFinal imgs).2)
    ∧ (∀ g ∈ (srNonOverrideFinal imgs).1, g.dir = []) := by
  refine ⟨List.mem_map_of_mem _ hf, rfl, ?_, ?_, ?_⟩
  · intro hdir
    have hw : srWorkerOutput f ∈ imgs.map srWorkerOutput :=
      List.mem_map_of_mem _ hf
    have hm : srWorkerOutput f ∈ detectNewTopLevel (imgs.map srWorkerOutput) := by
      rw [detectNewTopLevel, List.mem_filter]
      exact ⟨hw, by simp [srWorkerOutput, hdir]⟩
    simp only [srNonOverrideFinal]
    refine List.mem_map.mpr ⟨srWorkerOutput f, hm, ?_⟩
    simp [srWorkerOutput, removeOutSuffix_append]
  · intro hdir
    simp only [srNonOverrideFinal]
    rw [List.mem_filter]
    refine ⟨List.mem_map_of_mem _ hf, ?_⟩
    simp [srWorkerOutput, hdir]
  · intro g hg
    simp only [srNonOverrideFinal] at hg
    obtain ⟨q, -, rfl⟩ := List.mem_map.mp hg
    rfl

/-- **C9** (witness). -/
theorem mirrored_structure_witness :
    (rotationTargetPath ⟨[], "a", ".png"⟩).dir
        ∈ rotationPrecreatedDirs [⟨[], "a", ".png"⟩]
    ∧ rotationTargetPath ⟨[], "a", ".png"⟩ = ⟨[], "a", ".png"⟩
    ∧ ((⟨[], "a", ".png"⟩ : RelFile).dir = [] →
        (⟨[], (⟨[], "a", ".png"⟩ : RelFile).stem, (⟨[], "a", ".png"⟩ : RelFile).ext⟩ : RelFile)
          ∈ (srNonOverrideFinal [⟨[], "a", ".png"⟩]).1)
    ∧ ((⟨[], "a", ".png"⟩ : RelFile).dir ≠ [] →
        srWorkerOutput ⟨[], "a", ".png"⟩
          ∈ (srNonOverrideFinal [⟨[], "a", ".png"⟩]).2)
    ∧ (∀ g ∈ (srNonOverrideFinal [⟨[], "a", ".png"⟩]).1, g.dir = []) :=
  mirrored_structure [⟨[], "a", ".png"⟩] ⟨[], "a", ".png"⟩ (by decide)

/-- **C10**.  For any directory whose listing yields at least the image
files it contains, `Duplication.process_dir` submits each discovered image
FILE path — not a directory — as the `img_dir` argument of
`Duplication.process`; since on a well-formed filesystem a file path is
not a directory, the `is_dir` precondition of `process` fails, the worker
wrapper catches the raised error, and every per-unit outcome in the
returned list is the string `"Error processing <path>: ..."` — no unit
ever reaches the hashing / duplicate-resolution / deletion stage. -/
theorem dedup_batch_always_errors (fs : BatchFS) (imgDirPath : String)
    (listing : List String) (suffixOf : String → String)
    (results : List (Sum Unit String))
    (hwf : ∀ p ∈ getImgPathsByDir fs listing suffixOf, isDir fs p = false)
    (hok : dupProcessDir fs imgDirPath listing suffixOf = .ok results) :
    results.length = (getImgPathsByDir fs listing suffixOf).length
    ∧ ∀ r ∈ results, ∃ p ∈ getImgPathsByDir fs listing suffixOf,
        isFile fs p = true
        ∧ r = .inr ("Error processing " ++ p ++ ": "
            ++ ("提供的路径 " ++ p ++ " 不是一个有效的目录。")) := by
  unfold dupProcessDir at hok
  split at hok
  · exact absurd hok (by simp)
  · injection hok with hres
    subst hres
    constructor
    · exact (List.length_map _ _).symm ▸ rfl
    · intro r hr
      obtain ⟨p, hp, rfl⟩ := List.mem_map.mp hr
      have hfile : isFile fs p = true := by
        have := (List.mem_filter.mp hp).2
        exact (Bool.and_eq_true _ _ |>.mp this).1
      have hdir : isDir fs p = false := hwf p hp
      refine ⟨p, hp, hfile, ?_⟩
      simp [dupProcessSingleDirectory, dupProcessCheck, hdir]

/-- **C10** (witness). -/
theorem dedup_batch_always_errors_witness :
    ([Sum.inr ("Error processing " ++ "d/a.png" ++ ": "
        ++ ("提供的路径 " ++ "d/a.png" ++ " 不是一个有效的目录。"))]
      : List (Sum Unit String)).length
      = (getImgPathsByDir ⟨["d/a.png"], ["d"]⟩ ["d/a.png"] (fun _ => ".png")).length
    ∧ ∀ r ∈ ([Sum.inr ("Error processing " ++ "d/a.png" ++ ": "
          ++ ("提供的路径 " ++ "d/a.png" ++ " 不是一个有效的目录。"))]
        : List (Sum Unit String)),
        ∃ p ∈ getImgPathsByDir ⟨["d/a.png"], ["d"]⟩ ["d/a.png"] (fun _ => ".png"),
          isFile ⟨["d/a.png"], ["d"]⟩ p = true
          ∧ r = .inr ("Error processing " ++ p ++ ": "
              ++ ("提供的路径 " ++ p ++ " 不是一个有效的目录。")) :=
  dedup_batch_always_errors ⟨["d/a.png"], ["d"]⟩ "d" ["d/a.png"] (fun _ => ".png")
    [Sum.inr ("Error processing " ++ "d/a.png" ++ ": "
        ++ ("提供的路径 " ++ "d/a.png" ++ " 不是一个有效的目录。"))]
    (by decide) (by rfl)

end ImgTools
